import Mathlib

/-!
# Verification of the `ActionLog` edit-provenance core

A shallow embedding of `crates/assistant_tool/src/action_log.rs`: the pure
`ranges_intersect` helper and the per-buffer attribution state machine
(`Change`, `TrackedBuffer`, `ActionLog`) together with the operations
`track_buffer`, `buffer_read`, `will_create_buffer`, `buffer_edited`,
`will_delete_buffer`, `keep_edits_in_range`, `handle_buffer_operation`,
`handle_buffer_file_changed` and `stale_buffers`.

The external text-buffer subsystem (content, versions, edit-id range
resolution, disk state) is modelled as an explicit `Buffer` record carrying
the data the action log reads through the buffer interface.  Asynchronous
diff recomputation is observed only through its scheduling signal, which we
count (`diff_updates`).
-/

/-- A half-open `usize` range `[lo, hi)` as produced by
`edited_ranges_for_edit_ids::<usize>`. -/
structure Rg where
  lo : Nat
  hi : Nat
deriving DecidableEq, Repr

/-- `ranges_intersect` from `action_log.rs`: two-cursor walk over two sorted
lists of ranges; whichever range ends strictly before the other starts is
advanced, and if neither can be advanced the ranges intersect. -/
def ranges_intersect : List Rg → List Rg → Bool
  | [], _ => false
  | _ :: _, [] => false
  | a :: as, b :: bs =>
    if a.hi < b.lo then ranges_intersect as (b :: bs)
    else if b.hi < a.lo then ranges_intersect (a :: as) bs
    else true
termination_by a b => a.length + b.length

/-- Closed-interval touch semantics: `[a.lo, a.hi]` and `[b.lo, b.hi]` have a
common point (adjacent ranges, where one's end equals the other's start,
count as intersecting). -/
def Rg.touches (a b : Rg) : Prop := b.lo ≤ a.hi ∧ a.lo ≤ b.hi

instance (a b : Rg) : Decidable (a.touches b) :=
  inferInstanceAs (Decidable (_ ∧ _))

/-- A list of well-formed, sorted, internally non-overlapping half-open
ranges: each range ends no later than the next one starts. -/
def SortedRanges (l : List Rg) : Prop :=
  List.Chain' (fun r r' => r.hi ≤ r'.lo) l ∧ ∀ r ∈ l, r.lo ≤ r.hi

theorem sortedRanges_iff {l : List Rg} :
    SortedRanges l ↔ List.Chain' (fun r r' => r.hi ≤ r'.lo) l ∧ ∀ r ∈ l, r.lo ≤ r.hi :=
  Iff.rfl

theorem sortedRanges_tail {x : Rg} {l : List Rg} (h : SortedRanges (x :: l)) :
    SortedRanges l :=
  ⟨(List.chain'_cons'.mp h.1).2, fun r hr => h.2 r (List.mem_cons_of_mem x hr)⟩

theorem sortedRanges_head_lo {x : Rg} {l : List Rg} (h : SortedRanges (x :: l)) :
    ∀ r ∈ x :: l, x.lo ≤ r.lo := by
  induction l generalizing x with
  | nil =>
    intro r hr
    rcases List.mem_singleton.mp hr with rfl
    exact le_refl _
  | cons y t ih =>
    intro r hr
    have hxy : x.hi ≤ y.lo := (List.chain'_cons.mp h.1).1
    have hx : x.lo ≤ x.hi := h.2 x (List.mem_cons_self _ _)
    rcases List.mem_cons.mp hr with rfl | hr'
    · exact le_refl _
    · exact le_trans (le_trans hx hxy) (ih (sortedRanges_tail h) r hr')

/-- The two-cursor walk returns `true` exactly when some pair of ranges, one
from each (sorted) side, touches. -/
theorem ranges_intersect_iff :
    ∀ (a b : List Rg), SortedRanges a → SortedRanges b →
      (ranges_intersect a b = true ↔ ∃ ra ∈ a, ∃ rb ∈ b, ra.touches rb)
  | [], b, _, _ => by simp [ranges_intersect]
  | a :: as, [], _, _ => by simp [ranges_intersect]
  | a :: as, b :: bs, ha, hb => by
    by_cases h1 : a.hi < b.lo
    · have heq : ranges_intersect (a :: as) (b :: bs) = ranges_intersect as (b :: bs) := by
        simp [ranges_intersect, h1]
      rw [heq, ranges_intersect_iff as (b :: bs) (sortedRanges_tail ha) hb]
      constructor
      · rintro ⟨ra, hra, rb, hrb, ht⟩
        exact ⟨ra, List.mem_cons_of_mem _ hra, rb, hrb, ht⟩
      · rintro ⟨ra, hra, rb, hrb, ht⟩
        unfold Rg.touches at ht
        rcases List.mem_cons.mp hra with rfl | hra'
        · have hblo := sortedRanges_head_lo hb rb hrb
          omega
        · exact ⟨ra, hra', rb, hrb, ht⟩
    · by_cases h2 : b.hi < a.lo
      · have heq : ranges_intersect (a :: as) (b :: bs) = ranges_intersect (a :: as) bs := by
          simp [ranges_intersect, h1, h2]
        rw [heq, ranges_intersect_iff (a :: as) bs ha (sortedRanges_tail hb)]
        constructor
        · rintro ⟨ra, hra, rb, hrb, ht⟩
          exact ⟨ra, hra, rb, List.mem_cons_of_mem _ hrb, ht⟩
        · rintro ⟨ra, hra, rb, hrb, ht⟩
          unfold Rg.touches at ht
          rcases List.mem_cons.mp hrb with rfl | hrb'
          · have halo := sortedRanges_head_lo ha ra hra
            omega
          · exact ⟨ra, hra, rb, hrb', ht⟩
      · have heq : ranges_intersect (a :: as) (b :: bs) = true := by
          simp [ranges_intersect, h1, h2]
        rw [heq]
        simp only [true_iff]
        exact ⟨a, List.mem_cons_self _ _, b, List.mem_cons_self _ _,
          Nat.le_of_not_lt h1, Nat.le_of_not_lt h2⟩
termination_by a b => a.length + b.length

theorem ranges_intersect_nil_left (b : List Rg) : ranges_intersect [] b = false := by
  simp [ranges_intersect]

theorem ranges_intersect_nil_right (a : List Rg) : ranges_intersect a [] = false := by
  cases a <;> simp [ranges_intersect]

/-- C1: for sorted, internally non-overlapping lists of half-open ranges,
`ranges_intersect` returns `true` iff some range from the first list and some
range from the second have non-empty intersection under closed-interval touch
semantics; consequently the result is symmetric in its two arguments, and it
is `false` whenever either list is empty. -/
theorem ranges_intersect_spec (a b : List Rg)
    (ha : SortedRanges a) (hb : SortedRanges b) :
    (ranges_intersect a b = true ↔ ∃ ra ∈ a, ∃ rb ∈ b, ra.touches rb)
    ∧ ranges_intersect a b = ranges_intersect b a
    ∧ ranges_intersect [] b = false ∧ ranges_intersect a [] = false := by
  have h₁ := ranges_intersect_iff a b ha hb
  have h₂ := ranges_intersect_iff b a hb ha
  have hsw : (∃ ra ∈ a, ∃ rb ∈ b, ra.touches rb) ↔ ∃ rb ∈ b, ∃ ra ∈ a, rb.touches ra := by
    constructor
    · rintro ⟨ra, hra, rb, hrb, t1, t2⟩
      exact ⟨rb, hrb, ra, hra, t2, t1⟩
    · rintro ⟨rb, hrb, ra, hra, t1, t2⟩
      exact ⟨ra, hra, rb, hrb, t2, t1⟩
  refine ⟨h₁, ?_, ranges_intersect_nil_left b, ranges_intersect_nil_right a⟩
  have hiff : ranges_intersect a b = true ↔ ranges_intersect b a = true := by
    rw [h₁, h₂]
    exact hsw
  cases hx : ranges_intersect a b <;> cases hy : ranges_intersect b a <;> simp_all

/-- Witness for C1 at concrete inputs: `[0,2) ∪ [5,7)` against `[2,3)`
(touching at `2`, so they intersect under closed-interval semantics). -/
theorem ranges_intersect_spec_witness :
    SortedRanges [⟨0, 2⟩, ⟨5, 7⟩] ∧ SortedRanges [⟨2, 3⟩]
    ∧ ((ranges_intersect [⟨0, 2⟩, ⟨5, 7⟩] [⟨2, 3⟩] = true
          ↔ ∃ ra ∈ [Rg.mk 0 2, Rg.mk 5 7], ∃ rb ∈ [Rg.mk 2 3], ra.touches rb)
        ∧ ranges_intersect [⟨0, 2⟩, ⟨5, 7⟩] [⟨2, 3⟩] = ranges_intersect [⟨2, 3⟩] [⟨0, 2⟩, ⟨5, 7⟩]
        ∧ ranges_intersect [] [⟨2, 3⟩] = false ∧ ranges_intersect [⟨0, 2⟩, ⟨5, 7⟩] [] = false) :=
  ⟨by simp [sortedRanges_iff, List.chain'_cons, List.chain'_singleton],
   by simp [sortedRanges_iff, List.chain'_singleton],
   ranges_intersect_spec _ _
     (by simp [sortedRanges_iff, List.chain'_cons, List.chain'_singleton])
     (by simp [sortedRanges_iff, List.chain'_singleton])⟩

/-! ## The buffer interface and the action log state -/

/-- Edit identifier (`clock::Lamport`): a globally unique logical-clock token,
modelled as a natural number. -/
abbrev EditId := Nat

/-- Identity of a buffer handle (`Entity<Buffer>`), the `BTreeMap` key. -/
abbrev BufferId := Nat

/-- `language::DiskState` of a buffer's file. -/
inductive DiskState where
  | New
  | Present
  | Deleted
deriving DecidableEq, Repr

/-- The slice of the external text-buffer interface the action log reads:
identity, current content (its text snapshot), monotonic version, the file's
disk state when the buffer has a file, resolution of edit ids to the ranges
they last touched, and a supply of fresh edit ids for edits the log itself
triggers. -/
structure Buffer where
  id : BufferId
  content : String
  version : Nat
  file : Option DiskState
  editRanges : EditId → List Rg
  nextEditId : EditId

/-- `buffer.text_snapshot()`: the current content. -/
def Buffer.text_snapshot (buf : Buffer) : String := buf.content

/-- `buffer.edited_ranges_for_edit_ids::<usize>(ids)`: the ranges the given
edit ids last touched, in current coordinates. -/
def Buffer.edited_ranges_for_edit_ids (buf : Buffer) (ids : List EditId) : List Rg :=
  ids.flatMap buf.editRanges

/-- `buffer.set_text(text)`: replace the whole content, advancing the version
and producing a fresh edit id for the operation. -/
def Buffer.set_text (buf : Buffer) (text : String) : Buffer × Option EditId :=
  ({ buf with
      content := text
      version := buf.version + 1
      editRanges := fun i => if i = buf.nextEditId then [⟨0, text.length⟩] else buf.editRanges i
      nextEditId := buf.nextEditId + 1 },
   some buf.nextEditId)

/-- The `Change` attribution state of a tracked buffer. -/
inductive Change where
  | Edited (edit_ids : Finset EditId) (initial_content : Option String)
  | Deleted (deleted_content : String) (deletion_id : Option EditId)
deriving DecidableEq

/-- The edit ids attributed to the tool in an attribution state. -/
def Change.editIds : Change → Finset EditId
  | .Edited edit_ids _ => edit_ids
  | .Deleted _ _ => ∅

/-- A `TrackedBuffer` record: attribution state, the version at last
inspection, and the number of diff-recompute signals sent so far (the
observable effect of `schedule_diff_update`). -/
structure TrackedBuffer where
  change : Change
  version : Nat
  diff_updates : Nat
deriving DecidableEq

/-- `tracked_buffer.schedule_diff_update()`: send one recompute signal. -/
def TrackedBuffer.schedule_diff_update (tb : TrackedBuffer) : TrackedBuffer :=
  { tb with diff_updates := tb.diff_updates + 1 }

/-- The `ActionLog` registry. -/
structure ActionLog where
  stale_buffers_in_context : Finset BufferId
  tracked_buffers : List (BufferId × TrackedBuffer)
  edited_since_project_diagnostics_check : Bool
deriving DecidableEq

/-- `ActionLog::new()`. -/
def ActionLog.new : ActionLog :=
  { stale_buffers_in_context := ∅
    tracked_buffers := []
    edited_since_project_diagnostics_check := false }

/-- `BTreeMap` lookup on the tracked-buffer map. -/
def lookupTracked : List (BufferId × TrackedBuffer) → BufferId → Option TrackedBuffer
  | [], _ => none
  | (k, v) :: rest, b => if k = b then some v else lookupTracked rest b

/-- `BTreeMap` insert-or-replace, keeping entries ordered by key. -/
def insertTracked : List (BufferId × TrackedBuffer) → BufferId → TrackedBuffer →
    List (BufferId × TrackedBuffer)
  | [], b, v => [(b, v)]
  | (k, v') :: rest, b, v =>
    if k = b then (b, v) :: rest
    else if b < k then (b, v) :: (k, v') :: rest
    else (k, v') :: insertTracked rest b v

/-- `BTreeMap` removal of a key. -/
def removeTracked (m : List (BufferId × TrackedBuffer)) (b : BufferId) :
    List (BufferId × TrackedBuffer) :=
  m.filter fun p => p.1 != b

/-- `track_buffer`: ensure a record exists (a fresh one starts `Edited` with
no attributed edits and, unless `created`, the current content as baseline),
then refresh its `version` to the buffer's current version. -/
def ActionLog.track_buffer (log : ActionLog) (buf : Buffer) (created : Bool) : ActionLog :=
  let tb :=
    match lookupTracked log.tracked_buffers buf.id with
    | some tb => tb
    | none =>
      { change := .Edited ∅ (if created then none else some buf.text_snapshot)
        version := buf.version
        diff_updates := 0 }
  { log with
      tracked_buffers := insertTracked log.tracked_buffers buf.id { tb with version := buf.version } }

/-- A buffer operation as observed through `BufferEvent::Operation`: either a
text edit carrying its Lamport timestamp, or any other operation kind. -/
inductive Operation where
  | bufferEdit (timestamp : EditId)
  | other
deriving DecidableEq

/-- `handle_buffer_operation`: ignore untracked buffers, non-edit operations,
deleted records and already-attributed ids; otherwise attribute the operation
to the tool exactly when its edited ranges intersect the ranges of the
tracked tool edits, rescheduling a diff update in that case. -/
def ActionLog.handle_buffer_operation (log : ActionLog) (buf : Buffer) (op : Operation) :
    ActionLog :=
  match lookupTracked log.tracked_buffers buf.id with
  | none => log
  | some tb =>
    match op with
    | .other => log
    | .bufferEdit ts =>
      match tb.change with
      | .Deleted _ _ => log
      | .Edited edit_ids initial_content =>
        if ts ∈ edit_ids then log
        else
          let operation_edit_ranges := buf.edited_ranges_for_edit_ids [ts]
          let tracked_edit_ranges :=
            buf.edited_ranges_for_edit_ids (edit_ids.sort (· ≤ ·))
          if ranges_intersect operation_edit_ranges tracked_edit_ranges then
            { log with
                tracked_buffers := insertTracked log.tracked_buffers buf.id
                  (TrackedBuffer.schedule_diff_update
                    { tb with change := .Edited (insert ts edit_ids) initial_content }) }
          else log

/-- `file.disk_state() != DiskState::Deleted` under
`map_or(false, ...)`: true only when the buffer has a file that is not
deleted on disk. -/
def fileNotDeleted (buf : Buffer) : Bool :=
  match buf.file with
  | none => false
  | some ds => ds != DiskState.Deleted

/-- `file.disk_state() == DiskState::Deleted` under `map_or(false, ...)`. -/
def fileDeleted (buf : Buffer) : Bool :=
  match buf.file with
  | none => false
  | some ds => ds == DiskState.Deleted

/-- `handle_buffer_file_changed`: reconcile a tracked record with the
buffer's new on-disk state. -/
def ActionLog.handle_buffer_file_changed (log : ActionLog) (buf : Buffer) : ActionLog :=
  match lookupTracked log.tracked_buffers buf.id with
  | none => log
  | some tb =>
    match tb.change with
    | .Deleted _ _ =>
      let tb :=
        if fileNotDeleted buf then
          { tb with change := .Edited ∅ (some buf.text_snapshot) }
        else tb
      { log with
          tracked_buffers := insertTracked log.tracked_buffers buf.id tb.schedule_diff_update }
    | .Edited _ _ =>
      if fileDeleted buf then
        { log with tracked_buffers := removeTracked log.tracked_buffers buf.id }
      else
        { log with
            tracked_buffers := insertTracked log.tracked_buffers buf.id tb.schedule_diff_update }

/-- `buffer_read`: track a buffer as read. -/
def ActionLog.buffer_read (log : ActionLog) (buf : Buffer) : ActionLog :=
  log.track_buffer buf false

/-- `buffer_edited`: mark the diagnostics flag, add the buffer to the stale
set, ensure a record exists, fold the new edit ids into the attribution state
(resurrecting a `Deleted` record into `Edited`, with the deletion's own edit
id joining the new ids), and schedule a diff update. -/
def ActionLog.buffer_edited (log : ActionLog) (buf : Buffer) (edit_ids : List EditId) :
    ActionLog :=
  let log := { log with
      edited_since_project_diagnostics_check := true
      stale_buffers_in_context := insert buf.id log.stale_buffers_in_context }
  let log := log.track_buffer buf false
  match lookupTracked log.tracked_buffers buf.id with
  | none => log
  | some tb =>
    let tb :=
      match tb.change with
      | .Edited existing_edit_ids initial_content =>
        { tb with change := .Edited (existing_edit_ids ∪ edit_ids.toFinset) initial_content }
      | .Deleted deleted_content deletion_id =>
        { tb with
            change := .Edited (edit_ids ++ deletion_id.toList).toFinset (some deleted_content) }
    { log with
        tracked_buffers := insertTracked log.tracked_buffers buf.id tb.schedule_diff_update }

/-- `will_create_buffer`: track the buffer as created (empty baseline when
fresh), then record the optional creation edit id as an edit. -/
def ActionLog.will_create_buffer (log : ActionLog) (buf : Buffer) (edit_id : Option EditId) :
    ActionLog :=
  (log.track_buffer buf true).buffer_edited buf edit_id.toList

/-- `will_delete_buffer`: ensure a record exists; on an `Edited` record with
a baseline, clear the buffer's text and transition to `Deleted` with that
baseline and the clearing operation's edit id, scheduling a diff update; on
an `Edited` record without a baseline, drop the record. -/
def ActionLog.will_delete_buffer (log : ActionLog) (buf : Buffer) : ActionLog × Buffer :=
  let log := log.track_buffer buf false
  match lookupTracked log.tracked_buffers buf.id with
  | none => (log, buf)
  | some tb =>
    match tb.change with
    | .Edited _ initial_content =>
      match initial_content with
      | some ic =>
        let cleared := buf.set_text ""
        ({ log with
            tracked_buffers := insertTracked log.tracked_buffers buf.id
              (TrackedBuffer.schedule_diff_update
                { tb with change := .Deleted ic cleared.2 }) },
         cleared.1)
      | none =>
        ({ log with tracked_buffers := removeTracked log.tracked_buffers buf.id }, buf)
    | .Deleted _ _ => (log, buf)

/-- The `retain` predicate of `keep_edits_in_range`: an edit id is kept
exactly when none of its edited ranges touches `buffer_range`
(`buffer_range.end >= range.start && buffer_range.start <= range.end`). -/
def keepEditId (buf : Buffer) (buffer_range : Rg) (edit_id : EditId) : Bool :=
  (buf.edited_ranges_for_edit_ids [edit_id]).all fun r =>
    !(decide (r.lo ≤ buffer_range.hi) && decide (buffer_range.lo ≤ r.hi))

/-- `keep_edits_in_range`: on a tracked `Deleted` record drop it; on an
`Edited` record retain only the edit ids none of whose ranges touches
`buffer_range` (closed-interval touch counts as overlap), then schedule a
diff update.  Untracked buffers are ignored. -/
def ActionLog.keep_edits_in_range (log : ActionLog) (buf : Buffer) (buffer_range : Rg) :
    ActionLog :=
  match lookupTracked log.tracked_buffers buf.id with
  | none => log
  | some tb =>
    match tb.change with
    | .Deleted _ _ =>
      { log with tracked_buffers := removeTracked log.tracked_buffers buf.id }
    | .Edited edit_ids initial_content =>
      { log with
          tracked_buffers := insertTracked log.tracked_buffers buf.id
            (TrackedBuffer.schedule_diff_update
              { tb with
                  change := .Edited
                    (edit_ids.filter fun i => keepEditId buf buffer_range i = true)
                    initial_content }) }

/-- `stale_buffers`: the tracked buffers whose live version differs from the
version at last inspection, given the environment of live buffers. -/
def ActionLog.stale_buffers (log : ActionLog) (env : BufferId → Buffer) : List BufferId :=
  (log.tracked_buffers.filter fun p => p.2.version != (env p.1).version).map fun p => p.1

/-! ## Map lemmas -/

theorem lookup_insert_self (m : List (BufferId × TrackedBuffer)) (b : BufferId)
    (v : TrackedBuffer) : lookupTracked (insertTracked m b v) b = some v := by
  induction m with
  | nil => simp [insertTracked, lookupTracked]
  | cons p rest ih =>
    obtain ⟨k, v'⟩ := p
    by_cases hk : k = b
    · simp [insertTracked, lookupTracked, hk]
    · by_cases ho : b < k
      · simp [insertTracked, lookupTracked, hk, ho]
      · simp [insertTracked, lookupTracked, hk, ho, ih]

theorem lookup_remove_self (m : List (BufferId × TrackedBuffer)) (b : BufferId) :
    lookupTracked (removeTracked m b) b = none := by
  induction m with
  | nil => simp [removeTracked, lookupTracked]
  | cons p rest ih =>
    obtain ⟨k, v⟩ := p
    by_cases hk : k = b
    · simpa [removeTracked, List.filter_cons, hk] using ih
    · simpa [removeTracked, List.filter_cons, lookupTracked, hk] using ih

theorem lookup_mem {m : List (BufferId × TrackedBuffer)} {b : BufferId}
    {tb : TrackedBuffer} (h : lookupTracked m b = some tb) : (b, tb) ∈ m := by
  induction m with
  | nil => simp [lookupTracked] at h
  | cons p rest ih =>
    obtain ⟨k, v⟩ := p
    by_cases hk : k = b
    · subst hk
      simp [lookupTracked] at h
      subst h
      exact List.mem_cons_self _ _
    · simp [lookupTracked, hk] at h
      exact List.mem_cons_of_mem _ (ih h)

theorem mem_stale_buffers {log : ActionLog} {env : BufferId → Buffer} {b : BufferId}
    {tb : TrackedBuffer} (h : lookupTracked log.tracked_buffers b = some tb)
    (hv : tb.version ≠ (env b).version) : b ∈ log.stale_buffers env := by
  have hm := lookup_mem h
  unfold ActionLog.stale_buffers
  refine List.mem_map.mpr ⟨(b, tb), List.mem_filter.mpr ⟨hm, ?_⟩, rfl⟩
  simpa [bne_iff_ne] using hv

/-! ## Concrete fixtures -/

/-- A sample buffer with content `"abc"` and no resolvable edit ranges. -/
def bufA : Buffer :=
  { id := 0, content := "abc", version := 0, file := some .Present,
    editRanges := fun _ => [], nextEditId := 10 }

/-- The log after reading `bufA`: one `Edited` record with the content as
baseline. -/
def logTracked : ActionLog := ActionLog.new.buffer_read bufA

/-- The log after the tool deletes `bufA`: one `Deleted` record. -/
def logDeleted : ActionLog := (logTracked.will_delete_buffer bufA).1

/-! ## Claim theorems -/

/-- C9: operations referencing an untracked document are silent no-ops:
`keep_edits_in_range`, a buffer edit operation and a disk-state-change
notification all leave the entire `ActionLog` state unchanged. -/
theorem untracked_buffer_noop (log : ActionLog) (buf : Buffer)
    (h : lookupTracked log.tracked_buffers buf.id = none) :
    (∀ r : Rg, log.keep_edits_in_range buf r = log)
    ∧ (∀ op : Operation, log.handle_buffer_operation buf op = log)
    ∧ log.handle_buffer_file_changed buf = log := by
  refine ⟨fun r => ?_, fun op => ?_, ?_⟩ <;>
    simp [ActionLog.keep_edits_in_range, ActionLog.handle_buffer_operation,
      ActionLog.handle_buffer_file_changed, h]

/-- Witness for C9 on the empty log. -/
theorem untracked_buffer_noop_witness :
    lookupTracked ActionLog.new.tracked_buffers bufA.id = none
    ∧ ActionLog.new.keep_edits_in_range bufA ⟨0, 5⟩ = ActionLog.new
    ∧ ActionLog.new.handle_buffer_operation bufA (.bufferEdit 7) = ActionLog.new
    ∧ ActionLog.new.handle_buffer_file_changed bufA = ActionLog.new :=
  ⟨by rfl, (untracked_buffer_noop _ _ (by rfl)).1 _,
   (untracked_buffer_noop _ _ (by rfl)).2.1 _,
   (untracked_buffer_noop _ _ (by rfl)).2.2⟩

/-- C4: a single `keep_edits_in_range` call either removes the document's
record from tracking or leaves its `tool_edit_ids` a subset of its previous
value; it never adds an edit id. -/
theorem keep_edits_in_range_monotone (log : ActionLog) (buf : Buffer) (r : Rg) :
    lookupTracked (log.keep_edits_in_range buf r).tracked_buffers buf.id = none
    ∨ ∃ tb tb', lookupTracked log.tracked_buffers buf.id = some tb
        ∧ lookupTracked (log.keep_edits_in_range buf r).tracked_buffers buf.id = some tb'
        ∧ tb'.change.editIds ⊆ tb.change.editIds := by
  cases h : lookupTracked log.tracked_buffers buf.id with
  | none =>
    left
    simp [ActionLog.keep_edits_in_range, h]
  | some tb =>
    cases hch : tb.change with
    | Deleted dc did =>
      left
      simp [ActionLog.keep_edits_in_range, h, hch, lookup_remove_self]
    | Edited ids ic =>
      right
      refine ⟨tb, TrackedBuffer.schedule_diff_update
        { tb with change := .Edited (ids.filter fun i => keepEditId buf r i = true) ic },
        rfl, ?_, ?_⟩
      · simp [ActionLog.keep_edits_in_range, h, hch, lookup_insert_self]
      · simp [TrackedBuffer.schedule_diff_update, hch, Change.editIds]

/-- C2: `buffer_edited` on a `Deleted` record with baseline `B` and deletion
id `d` transitions it to `Edited` with `initial_content = some B` and
`tool_edit_ids` the set of the new ids together with `d`, and schedules a
diff recompute. -/
theorem buffer_edited_resurrects_deleted (log : ActionLog) (buf : Buffer)
    (E : List EditId) (tb : TrackedBuffer) (B : String) (d : Option EditId)
    (h : lookupTracked log.tracked_buffers buf.id = some tb)
    (hch : tb.change = .Deleted B d) :
    ∃ tb', lookupTracked (log.buffer_edited buf E).tracked_buffers buf.id = some tb'
      ∧ tb'.change = .Edited (E.toFinset ∪ d.toList.toFinset) (some B)
      ∧ tb'.diff_updates = tb.diff_updates + 1 := by
  refine ⟨{ change := .Edited (E.toFinset ∪ d.toList.toFinset) (some B),
            version := buf.version, diff_updates := tb.diff_updates + 1 }, ?_, rfl, rfl⟩
  simp [ActionLog.buffer_edited, ActionLog.track_buffer, h, lookup_insert_self, hch,
    TrackedBuffer.schedule_diff_update, List.toFinset_append]

/-- Witness for C2: resurrecting the tool-deleted `bufA` with edit id `20`. -/
theorem buffer_edited_resurrects_deleted_witness :
    lookupTracked logDeleted.tracked_buffers bufA.id
        = some { change := .Deleted "abc" (some 10), version := 0, diff_updates := 1 }
    ∧ ∃ tb', lookupTracked (logDeleted.buffer_edited bufA [20]).tracked_buffers bufA.id
          = some tb'
        ∧ tb'.change = .Edited ([20].toFinset ∪ (some 10 : Option EditId).toList.toFinset)
            (some "abc")
        ∧ tb'.diff_updates = 1 + 1 :=
  ⟨by decide, buffer_edited_resurrects_deleted logDeleted bufA [20]
    { change := .Deleted "abc" (some 10), version := 0, diff_updates := 1 }
    "abc" (some 10) (by decide) rfl⟩

/-- Helper: `will_delete_buffer` on a tracked `Edited` record with baseline
`some B` clears the buffer and leaves a `Deleted` record carrying `B` and
the clearing operation's edit id. -/
theorem will_delete_buffer_edited_some (log : ActionLog) (buf : Buffer)
    (tb : TrackedBuffer) (ids : Finset EditId) (B : String)
    (h : lookupTracked log.tracked_buffers buf.id = some tb)
    (hch : tb.change = .Edited ids (some B)) :
    lookupTracked (log.will_delete_buffer buf).1.tracked_buffers buf.id
      = some { change := .Deleted B (buf.set_text "").2, version := buf.version,
               diff_updates := tb.diff_updates + 1 }
    ∧ (log.will_delete_buffer buf).2.content = "" := by
  constructor
  · simp [ActionLog.will_delete_buffer, ActionLog.track_buffer, h, lookup_insert_self, hch,
      TrackedBuffer.schedule_diff_update]
  · simp [ActionLog.will_delete_buffer, ActionLog.track_buffer, h, lookup_insert_self, hch,
      Buffer.set_text]

/-- C5: `will_delete_buffer` on a tracked `Edited` record: with baseline
`some B` the buffer's content is cleared and the record becomes `Deleted`
with `deleted_content = B` and the clearing operation's edit id, scheduling
a recompute; with baseline `none` the record is dropped entirely. -/
theorem will_delete_buffer_spec (log : ActionLog) (buf : Buffer)
    (tb : TrackedBuffer) (ids : Finset EditId) (ic : Option String)
    (h : lookupTracked log.tracked_buffers buf.id = some tb)
    (hch : tb.change = .Edited ids ic) :
    (∀ B, ic = some B →
        (log.will_delete_buffer buf).2.content = ""
        ∧ ∃ tb', lookupTracked (log.will_delete_buffer buf).1.tracked_buffers buf.id
              = some tb'
            ∧ tb'.change = .Deleted B (buf.set_text "").2
            ∧ tb'.diff_updates = tb.diff_updates + 1)
    ∧ (ic = none →
        lookupTracked (log.will_delete_buffer buf).1.tracked_buffers buf.id = none) := by
  constructor
  · rintro B rfl
    have hh := will_delete_buffer_edited_some log buf tb ids B h hch
    exact ⟨hh.2, _, hh.1, rfl, rfl⟩
  · rintro rfl
    simp [ActionLog.will_delete_buffer, ActionLog.track_buffer, h, lookup_insert_self, hch,
      lookup_remove_self]

/-- Witness for C5: deleting the tracked `bufA` whose baseline is `"abc"`. -/
theorem will_delete_buffer_spec_witness :
    lookupTracked logTracked.tracked_buffers bufA.id
        = some { change := .Edited ∅ (some "abc"), version := 0, diff_updates := 0 }
    ∧ ((logTracked.will_delete_buffer bufA).2.content = ""
      ∧ ∃ tb', lookupTracked (logTracked.will_delete_buffer bufA).1.tracked_buffers bufA.id
            = some tb'
          ∧ tb'.change = .Deleted "abc" (bufA.set_text "").2
          ∧ tb'.diff_updates = 0 + 1) :=
  ⟨by decide, (will_delete_buffer_spec logTracked bufA
      { change := .Edited ∅ (some "abc"), version := 0, diff_updates := 0 }
      ∅ (some "abc") (by decide) rfl).1 "abc" rfl⟩

/-- C10: `will_delete_buffer` on an untracked buffer is not a no-op: a
record is first created `Edited` with baseline `some (current content)`
(this is exactly `track_buffer`), and the call then leaves a `Deleted`
record whose `deleted_content` is the pre-deletion content, with the
buffer's text cleared. -/
theorem will_delete_untracked_spec (log : ActionLog) (buf : Buffer)
    (h : lookupTracked log.tracked_buffers buf.id = none) :
    lookupTracked (log.track_buffer buf false).tracked_buffers buf.id
        = some { change := .Edited ∅ (some buf.content), version := buf.version,
                 diff_updates := 0 }
    ∧ ∃ tb', lookupTracked (log.will_delete_buffer buf).1.tracked_buffers buf.id = some tb'
        ∧ tb'.change = .Deleted buf.content (buf.set_text "").2
        ∧ (log.will_delete_buffer buf).2.content = "" := by
  constructor
  · simp [ActionLog.track_buffer, h, lookup_insert_self, Buffer.text_snapshot]
  · refine ⟨{ change := .Deleted buf.content (buf.set_text "").2, version := buf.version,
              diff_updates := 0 + 1 }, ?_, rfl, ?_⟩
    · simp [ActionLog.will_delete_buffer, ActionLog.track_buffer, h, lookup_insert_self,
        TrackedBuffer.schedule_diff_update, Buffer.text_snapshot]
    · simp [ActionLog.will_delete_buffer, ActionLog.track_buffer, h, lookup_insert_self,
        Buffer.set_text, Buffer.text_snapshot]

/-- Witness for C10 on the empty log. -/
theorem will_delete_untracked_spec_witness :
    lookupTracked ActionLog.new.tracked_buffers bufA.id = none
    ∧ (lookupTracked (ActionLog.new.track_buffer bufA false).tracked_buffers bufA.id
        = some { change := .Edited ∅ (some bufA.content), version := bufA.version,
                 diff_updates := 0 }
      ∧ ∃ tb', lookupTracked (ActionLog.new.will_delete_buffer bufA).1.tracked_buffers bufA.id
            = some tb'
          ∧ tb'.change = .Deleted bufA.content (bufA.set_text "").2
          ∧ (ActionLog.new.will_delete_buffer bufA).2.content = "") :=
  ⟨by rfl, will_delete_untracked_spec ActionLog.new bufA (by rfl)⟩

/-- Helper: a `Deleted` record whose buffer is no longer deleted on disk is
reset by `handle_buffer_file_changed` to `Edited` with no attributed edits
and the current content as baseline, with a recompute scheduled. -/
theorem hbfc_deleted_resurrected (log : ActionLog) (buf : Buffer) (tb : TrackedBuffer)
    (B : String) (d : Option EditId)
    (h : lookupTracked log.tracked_buffers buf.id = some tb)
    (hch : tb.change = .Deleted B d) (hf : fileNotDeleted buf = true) :
    lookupTracked (log.handle_buffer_file_changed buf).tracked_buffers buf.id
      = some { change := .Edited ∅ (some buf.content), version := tb.version,
               diff_updates := tb.diff_updates + 1 } := by
  simp [ActionLog.handle_buffer_file_changed, h, hch, hf, lookup_insert_self,
    TrackedBuffer.schedule_diff_update, Buffer.text_snapshot]

/-- C3: disk-state reconciliation for a tracked document. A `Deleted` record
whose file is no longer deleted resets to `Edited` with empty edit ids and
baseline the current content; an `Edited` record whose file is now deleted
is dropped from tracking; in every other case only a recompute is
rescheduled.  In particular, a tool deletion of content `C` followed by an
external restoration with content `C'` leaves the record `Edited` with
baseline `C'` and no attributed edits. -/
theorem handle_buffer_file_changed_spec (log : ActionLog) (buf : Buffer)
    (tb : TrackedBuffer)
    (h : lookupTracked log.tracked_buffers buf.id = some tb) :
    (∀ B d, tb.change = .Deleted B d → fileNotDeleted buf = true →
        lookupTracked (log.handle_buffer_file_changed buf).tracked_buffers buf.id
          = some { change := .Edited ∅ (some buf.content), version := tb.version,
                   diff_updates := tb.diff_updates + 1 })
    ∧ (∀ ids ic, tb.change = .Edited ids ic → fileDeleted buf = true →
        lookupTracked (log.handle_buffer_file_changed buf).tracked_buffers buf.id = none)
    ∧ (∀ B d, tb.change = .Deleted B d → fileNotDeleted buf = false →
        lookupTracked (log.handle_buffer_file_changed buf).tracked_buffers buf.id
          = some { tb with diff_updates := tb.diff_updates + 1 })
    ∧ (∀ ids ic, tb.change = .Edited ids ic → fileDeleted buf = false →
        lookupTracked (log.handle_buffer_file_changed buf).tracked_buffers buf.id
          = some { tb with diff_updates := tb.diff_updates + 1 })
    ∧ (∀ ids C, tb.change = .Edited ids (some C) →
        ∀ buf' : Buffer, buf'.id = buf.id → fileNotDeleted buf' = true →
          lookupTracked
              ((log.will_delete_buffer buf).1.handle_buffer_file_changed buf').tracked_buffers
              buf.id
            = some { change := .Edited ∅ (some buf'.content), version := buf.version,
                     diff_updates := tb.diff_updates + 1 + 1 }) := by
  refine ⟨?_, ?_, ?_, ?_, ?_⟩
  · intro B d hch hf
    exact hbfc_deleted_resurrected log buf tb B d h hch hf
  · intro ids ic hch hf
    simp [ActionLog.handle_buffer_file_changed, h, hch, hf, lookup_remove_self]
  · intro B d hch hf
    simp [ActionLog.handle_buffer_file_changed, h, hch, hf, lookup_insert_self,
      TrackedBuffer.schedule_diff_update]
  · intro ids ic hch hf
    simp [ActionLog.handle_buffer_file_changed, h, hch, hf, lookup_insert_self,
      TrackedBuffer.schedule_diff_update]
  · intro ids C hch buf' hid hf
    have h1 := (will_delete_buffer_edited_some log buf tb ids C h hch).1
    rw [← hid] at h1
    have h2 := hbfc_deleted_resurrected (log.will_delete_buffer buf).1 buf'
      { change := .Deleted C (buf.set_text "").2, version := buf.version,
        diff_updates := tb.diff_updates + 1 }
      C (buf.set_text "").2 h1 rfl hf
    rw [← hid]
    exact h2

/-- `bufA` after an external actor restores it with different content. -/
def bufRes : Buffer := { bufA with content := "XYZ" }

/-- Witness for C3: the tool-deleted `bufA` is resurrected externally with
content `"XYZ"`. -/
theorem handle_buffer_file_changed_spec_witness :
    lookupTracked logDeleted.tracked_buffers bufRes.id
        = some { change := .Deleted "abc" (some 10), version := 0, diff_updates := 1 }
    ∧ lookupTracked (logDeleted.handle_buffer_file_changed bufRes).tracked_buffers bufRes.id
        = some { change := .Edited ∅ (some bufRes.content), version := 0,
                 diff_updates := 1 + 1 } :=
  ⟨by decide, (handle_buffer_file_changed_spec logDeleted bufRes
      { change := .Deleted "abc" (some 10), version := 0, diff_updates := 1 }
      (by decide)).1 "abc" (some 10) rfl (by decide)⟩

/-- C6 counterexample: `will_create_buffer` on a buffer that is already
tracked (here via `buffer_read`, whose record carries baseline
`some "abc"`) does not reset the baseline to `none`: the record stays
`Edited` with `initial_content = some "abc"`. -/
theorem will_create_buffer_counterexample :
    (lookupTracked ((logTracked.will_create_buffer bufA none)).tracked_buffers bufA.id).map
        TrackedBuffer.change
      = some (Change.Edited ∅ (some "abc"))
    ∧ some (Change.Edited ∅ (some "abc")) ≠ some (Change.Edited ∅ none) := by
  constructor
  · decide
  · decide

/-- C6 (amended): after `will_create_buffer` on a document that was *not*
already tracked, the document has a record whose state is `Edited` with
`initial_content = none`, so later diffing shows the entire content as new.
(If the document was already tracked, the prior attribution state — and in
particular its baseline — is kept.) -/
theorem will_create_buffer_untracked_spec (log : ActionLog) (buf : Buffer)
    (edit_id : Option EditId)
    (h : lookupTracked log.tracked_buffers buf.id = none) :
    ∃ tb', lookupTracked (log.will_create_buffer buf edit_id).tracked_buffers buf.id
        = some tb'
      ∧ tb'.change = .Edited edit_id.toList.toFinset none := by
  refine ⟨{ change := .Edited edit_id.toList.toFinset none, version := buf.version,
            diff_updates := 0 + 1 }, ?_, rfl⟩
  simp [ActionLog.will_create_buffer, ActionLog.buffer_edited, ActionLog.track_buffer, h,
    lookup_insert_self, TrackedBuffer.schedule_diff_update]

/-- Witness for C6 (amended) on the empty log. -/
theorem will_create_buffer_untracked_spec_witness :
    lookupTracked ActionLog.new.tracked_buffers bufA.id = none
    ∧ ∃ tb', lookupTracked (ActionLog.new.will_create_buffer bufA (some 3)).tracked_buffers
          bufA.id = some tb'
        ∧ tb'.change = .Edited (some 3 : Option EditId).toList.toFinset none :=
  ⟨by rfl, will_create_buffer_untracked_spec ActionLog.new bufA (some 3) (by rfl)⟩

/-- Helper: `(s ∪ t) ∪ s = s ∪ t` for finsets of edit ids. -/
theorem union_union_self_left (s t : Finset EditId) : (s ∪ t) ∪ s = s ∪ t := by
  rw [Finset.union_comm s t, Finset.union_assoc, Finset.union_self, Finset.union_comm t s]

/-- The `tool_edit_ids` set of a buffer's record, when it is `Edited`. -/
def recordEditIds (log : ActionLog) (b : BufferId) : Option (Finset EditId) :=
  match lookupTracked log.tracked_buffers b with
  | some tb =>
    match tb.change with
    | .Edited edit_ids _ => some edit_ids
    | .Deleted _ _ => none
  | none => none

/-- Helper: `buffer_edited` is idempotent on the attributed edit-id set:
replaying the same list of edit ids leaves `tool_edit_ids` unchanged. -/
theorem buffer_edited_idem (log : ActionLog) (buf : Buffer) (E : List EditId) :
    recordEditIds ((log.buffer_edited buf E).buffer_edited buf E) buf.id
      = recordEditIds (log.buffer_edited buf E) buf.id := by
  cases h : lookupTracked log.tracked_buffers buf.id with
  | none =>
    simp [ActionLog.buffer_edited, ActionLog.track_buffer, h, lookup_insert_self,
      recordEditIds, TrackedBuffer.schedule_diff_update, Finset.empty_union,
      Finset.union_assoc, Finset.union_self]
  | some tb =>
    cases hch : tb.change with
    | Edited ids ic =>
      simp [ActionLog.buffer_edited, ActionLog.track_buffer, h, hch, lookup_insert_self,
        recordEditIds, TrackedBuffer.schedule_diff_update, Finset.union_assoc,
        Finset.union_self]
    | Deleted dc did =>
      simp [ActionLog.buffer_edited, ActionLog.track_buffer, h, hch, lookup_insert_self,
        recordEditIds, TrackedBuffer.schedule_diff_update, List.toFinset_append,
        union_union_self_left]
      rw [Finset.union_comm did.toList.toFinset E.toFinset, ← Finset.union_assoc,
        Finset.union_self]

/-- C8: replaying an edit id is idempotent.  For a tracked `Edited` record,
an operation whose id is already in `tool_edit_ids` leaves the whole log
unchanged, and replaying the same ids through `buffer_edited` yields the
same `tool_edit_ids` set as applying them once. -/
theorem replay_idempotent (log : ActionLog) (buf : Buffer) (ts : EditId)
    (tb : TrackedBuffer) (ids : Finset EditId) (ic : Option String)
    (h : lookupTracked log.tracked_buffers buf.id = some tb)
    (hch : tb.change = .Edited ids ic) (hmem : ts ∈ ids) :
    log.handle_buffer_operation buf (.bufferEdit ts) = log
    ∧ ∀ E : List EditId,
        recordEditIds ((log.buffer_edited buf E).buffer_edited buf E) buf.id
          = recordEditIds (log.buffer_edited buf E) buf.id := by
  constructor
  · simp [ActionLog.handle_buffer_operation, h, hch, hmem]
  · intro E
    exact buffer_edited_idem log buf E

/-- Helper: an edit operation whose ranges do not intersect the tracked
edits' ranges leaves the log unchanged. -/
theorem handle_buffer_operation_no_overlap (log : ActionLog) (buf : Buffer)
    (ts : EditId) (tb : TrackedBuffer) (ids : Finset EditId) (ic : Option String)
    (h : lookupTracked log.tracked_buffers buf.id = some tb)
    (hch : tb.change = .Edited ids ic)
    (hni : ranges_intersect (buf.edited_ranges_for_edit_ids [ts])
        (buf.edited_ranges_for_edit_ids (ids.sort (· ≤ ·))) = false) :
    log.handle_buffer_operation buf (.bufferEdit ts) = log := by
  by_cases hmem : ts ∈ ids
  · simp [ActionLog.handle_buffer_operation, h, hch, hmem]
  · simp [ActionLog.handle_buffer_operation, h, hch, hmem, hni]

/-- A tracked buffer whose record has fallen behind the live version: the
record was last inspected at version 0 while the buffer is at version 5.
Edit id 1 touched `[0,1)` and edit id 2 touched `[3,4)`. -/
def cBuf7 : Buffer :=
  { id := 0, content := "xy", version := 5, file := some .Present,
    editRanges := fun i => if i = 1 then [⟨0, 1⟩] else if i = 2 then [⟨3, 4⟩] else [],
    nextEditId := 3 }

/-- A log tracking `cBuf7` with tool edit id 1 and `last_seen_version` 0. -/
def cLog7 : ActionLog :=
  { stale_buffers_in_context := ∅,
    tracked_buffers := [(0, { change := .Edited {1} none, version := 0, diff_updates := 0 })],
    edited_since_project_diagnostics_check := false }

/-- The live-buffer environment for `cLog7`. -/
def env7 : BufferId → Buffer := fun _ => cBuf7

/-- C7 counterexample: a non-overlapping user edit (id 2, range `[3,4)`,
disjoint from the tracked edit's `[0,1)`) does not advance the record's
`last_seen_version`: it stays `0` even though the buffer's version is `5`. -/
theorem operation_version_not_advanced_counterexample :
    (lookupTracked (cLog7.handle_buffer_operation cBuf7 (.bufferEdit 2)).tracked_buffers
        0).map TrackedBuffer.version = some 0
    ∧ cBuf7.version = 5 := by
  have hni : ranges_intersect (cBuf7.edited_ranges_for_edit_ids [2])
      (cBuf7.edited_ranges_for_edit_ids ((({1} : Finset EditId)).sort (· ≤ ·))) = false := by
    rw [Finset.sort_singleton]
    show ranges_intersect [⟨3, 4⟩] [⟨0, 1⟩] = false
    simp [ranges_intersect]
  have hno := handle_buffer_operation_no_overlap cLog7 cBuf7 2
    { change := .Edited {1} none, version := 0, diff_updates := 0 } {1} none
    (by decide) rfl hni
  rw [hno]
  exact ⟨rfl, rfl⟩

/-- C7 (amended): an edit operation on a tracked `Edited` document whose
edited range does not intersect (closed-interval touch semantics) any
tracked tool edit's range is not attributed: the whole log — in particular
the record, including its `last_seen_version` — is unchanged.  Staleness
arises because the buffer's own version has advanced past the unchanged
`last_seen_version`, so the buffer appears in `stale_buffers`. -/
theorem nonoverlapping_operation_spec (log : ActionLog) (buf : Buffer)
    (ts : EditId) (tb : TrackedBuffer) (ids : Finset EditId) (ic : Option String)
    (env : BufferId → Buffer)
    (h : lookupTracked log.tracked_buffers buf.id = some tb)
    (hch : tb.change = .Edited ids ic)
    (hni : ranges_intersect (buf.edited_ranges_for_edit_ids [ts])
        (buf.edited_ranges_for_edit_ids (ids.sort (· ≤ ·))) = false)
    (henv : env buf.id = buf) (hver : tb.version ≠ buf.version) :
    log.handle_buffer_operation buf (.bufferEdit ts) = log
    ∧ lookupTracked (log.handle_buffer_operation buf (.bufferEdit ts)).tracked_buffers buf.id
        = some tb
    ∧ buf.id ∈ log.stale_buffers env := by
  have hno := handle_buffer_operation_no_overlap log buf ts tb ids ic h hch hni
  refine ⟨hno, by rw [hno]; exact h, mem_stale_buffers h (by rw [henv]; exact hver)⟩

/-- Witness for C7 (amended) at the concrete `cLog7`/`cBuf7`. -/
theorem nonoverlapping_operation_spec_witness :
    lookupTracked cLog7.tracked_buffers cBuf7.id
        = some { change := .Edited {1} none, version := 0, diff_updates := 0 }
    ∧ (cLog7.handle_buffer_operation cBuf7 (.bufferEdit 2) = cLog7
      ∧ lookupTracked (cLog7.handle_buffer_operation cBuf7 (.bufferEdit 2)).tracked_buffers
            cBuf7.id
          = some { change := .Edited {1} none, version := 0, diff_updates := 0 }
      ∧ cBuf7.id ∈ cLog7.stale_buffers env7) :=
  ⟨by decide, nonoverlapping_operation_spec cLog7 cBuf7 2
    { change := .Edited {1} none, version := 0, diff_updates := 0 } {1} none env7
    (by decide) rfl
    (by
      rw [Finset.sort_singleton]
      show ranges_intersect [⟨3, 4⟩] [⟨0, 1⟩] = false
      simp [ranges_intersect])
    rfl (by decide)⟩

/-- Witness for C8 at the concrete `cLog7`/`cBuf7`. -/
theorem replay_idempotent_witness :
    lookupTracked cLog7.tracked_buffers cBuf7.id
        = some { change := .Edited {1} none, version := 0, diff_updates := 0 }
    ∧ (1 : EditId) ∈ ({1} : Finset EditId)
    ∧ cLog7.handle_buffer_operation cBuf7 (.bufferEdit 1) = cLog7
    ∧ recordEditIds ((cLog7.buffer_edited cBuf7 [4]).buffer_edited cBuf7 [4]) cBuf7.id
        = recordEditIds (cLog7.buffer_edited cBuf7 [4]) cBuf7.id :=
  ⟨by decide, by decide,
   (replay_idempotent cLog7 cBuf7 1
      { change := .Edited {1} none, version := 0, diff_updates := 0 } {1} none
      (by decide) rfl (by decide)).1,
   (replay_idempotent cLog7 cBuf7 1
      { change := .Edited {1} none, version := 0, diff_updates := 0 } {1} none
      (by decide) rfl (by decide)).2 [4]⟩
